import Mathlib

/-!
Verification of the local semantic code index of `codex-agentic`
(`src/codex-agentic/src/indexing/mod.rs` and `src/codex-agentic/src/main.rs`).

Bytes are modelled as `List Nat` (each entry a value `< 256` where it matters),
`u32`/`u64` machine integers as `Nat` with explicit bounds or `% 2 ^ 64`
where overflow matters, and `f32` payloads of the vector file as their
little-endian bit patterns (`Nat < 2 ^ 32`), since the file format only
moves them bitwise.
-/

/-- Little-endian encoding of `n` into exactly `k` bytes, as produced by
`u32::to_le_bytes` / `u64::to_le_bytes` / `f32::to_le_bytes` (on the bit
pattern) in `write_vectors_file`. -/
def leBytes : Nat → Nat → List Nat
  | 0, _ => []
  | k + 1, n => n % 256 :: leBytes k (n / 256)

/-- Little-endian decoding of a byte list, as in `u32::from_le_bytes` /
`u64::from_le_bytes` / `f32::from_le_bytes` in `load_vectors`. -/
def leVal : List Nat → Nat
  | [] => 0
  | b :: bs => b + 256 * leVal bs

/-- The 4-byte magic `b"VEC0"` written at the head of `vectors.hnsw`. -/
def magicVEC0 : List Nat := [86, 69, 67, 48]

/-- `write_vectors_file` (indexing/mod.rs lines 599-615): magic `VEC0`,
`dim` as u32 LE, row count (`ids.len()`) as u64 LE, each id as u64 LE,
then each f32 as its 4 LE bytes. -/
def writeVectorsFile (dim : Nat) (ids : List Nat) (data : List Nat) : List Nat :=
  magicVEC0 ++ leBytes 4 dim ++ leBytes 8 ids.length
    ++ ids.flatMap (leBytes 8) ++ data.flatMap (leBytes 4)

/-- `Read::read_exact` on a buffered byte stream: consume exactly `k` bytes
or fail. -/
def readExact (k : Nat) (b : List Nat) : Option (List Nat × List Nat) :=
  if k ≤ b.length then some (b.take k, b.drop k) else none

/-- The id-reading loop of `load_vectors`: `rows` times, read 8 bytes and
decode a u64. -/
def readIds : Nat → List Nat → Option (List Nat × List Nat)
  | 0, b => some ([], b)
  | r + 1, b =>
    match readExact 8 b with
    | none => none
    | some (w, rest) =>
      match readIds r rest with
      | none => none
      | some (ids, rem) => some (leVal w :: ids, rem)

/-- The f32-decoding loop of `load_vectors`: the `i`-th value is decoded
from bytes `4*i .. 4*i+4` of the remaining buffer (trailing bytes beyond
`4*n` are ignored, exactly as in the indexed loop of the source). -/
def readF32s : Nat → List Nat → List Nat
  | 0, _ => []
  | i + 1, b => leVal (b.take 4) :: readF32s i (b.drop 4)

/-- `load_vectors` (indexing/mod.rs lines 569-598). The magic is read and
discarded; `dim` and `rows` are decoded; `rows` ids are read; the rest of
the file is read to the end and `rows * dim` f32 values are decoded from
it. The out-of-bounds indexing panic of the source (when the tail holds fewer
than `rows * dim * 4` bytes) is modelled as `none`, as are the
`read_exact` I/O errors. -/
def loadVectors (bytes : List Nat) : Option (List Nat × List Nat) :=
  match readExact 4 bytes with
  | none => none
  | some (_, b1) =>
    match readExact 4 b1 with
    | none => none
    | some (d4, b2) =>
      let dim := leVal d4
      match readExact 8 b2 with
      | none => none
      | some (r8, b3) =>
        let rows := leVal r8
        match readIds rows b3 with
        | none => none
        | some (ids, rest) =>
          let n := rows * dim
          if n * 4 ≤ rest.length then some (ids, readF32s n rest) else none

/-!
Binary detection (`looks_binary`, indexing/mod.rs lines 711-734) and the
preview computation (`preview`, lines 846-852). Buffers are byte lists.
-/

/-- A UTF-8 continuation byte (`0x80 ..= 0xBF`). -/
def isCont (b : Nat) : Bool := 128 ≤ b && b ≤ 191

/-- Validity of a byte list as UTF-8, exactly as decided by the Rust function
`std::str::from_utf8` (well-formed sequences only: no overlong forms, no
surrogates, code points at most U+10FFFF). -/
def validUtf8 : List Nat → Bool
  | [] => true
  | b :: rest =>
    if b ≤ 127 then validUtf8 rest
    else if 194 ≤ b && b ≤ 223 then
      match rest with
      | c1 :: r => isCont c1 && validUtf8 r
      | [] => false
    else if b = 224 then
      match rest with
      | c1 :: c2 :: r => (160 ≤ c1 && c1 ≤ 191) && isCont c2 && validUtf8 r
      | _ => false
    else if (225 ≤ b && b ≤ 236) || b = 238 || b = 239 then
      match rest with
      | c1 :: c2 :: r => isCont c1 && isCont c2 && validUtf8 r
      | _ => false
    else if b = 237 then
      match rest with
      | c1 :: c2 :: r => (128 ≤ c1 && c1 ≤ 159) && isCont c2 && validUtf8 r
      | _ => false
    else if b = 240 then
      match rest with
      | c1 :: c2 :: c3 :: r => (144 ≤ c1 && c1 ≤ 191) && isCont c2 && isCont c3 && validUtf8 r
      | _ => false
    else if 241 ≤ b && b ≤ 243 then
      match rest with
      | c1 :: c2 :: c3 :: r => isCont c1 && isCont c2 && isCont c3 && validUtf8 r
      | _ => false
    else if b = 244 then
      match rest with
      | c1 :: c2 :: c3 :: r => (128 ≤ c1 && c1 ≤ 143) && isCont c2 && isCont c3 && validUtf8 r
      | _ => false
    else false

/-- `b"%PDF-"`. -/
def pdfMagic : List Nat := [37, 80, 68, 70, 45]

/-- `b"PK\x03\x04"`. -/
def zipMagic : List Nat := [80, 75, 3, 4]

/-- `b"\x7FELF"`. -/
def elfMagic : List Nat := [127, 69, 76, 70]

/-- `b"\x89PNG\r\n\x1a\n"`. -/
def pngMagic : List Nat := [137, 80, 78, 71, 13, 10, 26, 10]

/-- `b"MZ"`. -/
def mzMagic : List Nat := [77, 90]

/-- Number of NUL bytes in a buffer. -/
def nulCount (buf : List Nat) : Nat := (buf.filter (fun b => b = 0)).length

/-- `looks_binary` (indexing/mod.rs lines 711-734): when the buffer has at
least 4 bytes, the first `min 8 len` bytes are checked against the magic
prefixes (early `return true`); then the NUL-density test
`nul * 10 > max(len, 1)`; then UTF-8 validity. -/
def looksBinary (buf : List Nat) : Bool :=
  (if 4 ≤ buf.length then
    let magic := buf.take (min 8 buf.length)
    pdfMagic.isPrefixOf magic || zipMagic.isPrefixOf magic || elfMagic.isPrefixOf magic
      || pngMagic.isPrefixOf magic || mzMagic.isPrefixOf magic
   else false)
  || decide (nulCount buf * 10 > max buf.length 1)
  || !validUtf8 buf

/-- The binary-classification predicate exactly as the claim states it
(for comparison with `looksBinary`): a magic-number prefix of the buffer
itself (with no minimum-length condition), more than 10% NUL bytes, or
invalid UTF-8. -/
def claimBinary (buf : List Nat) : Bool :=
  pdfMagic.isPrefixOf buf || zipMagic.isPrefixOf buf || elfMagic.isPrefixOf buf
    || pngMagic.isPrefixOf buf || mzMagic.isPrefixOf buf
  || decide (nulCount buf * 10 > buf.length)
  || !validUtf8 buf

/-!
Preview computation. `preview` (indexing/mod.rs lines 846-852) joins the
first up-to-8 `str::lines` of a chunk with `"\n"` and, when the result
exceeds 800 bytes, calls `String::truncate(800)`. Text is modelled at the
byte level (for valid UTF-8 the byte `0x0A` occurs only as the newline
character, so `str::lines` coincides with byte-level splitting).
-/

/-- Strip one trailing carriage return, as `str::lines` does for each line
terminated by `\n` (a `\r\n` line ending). -/
def dropTrailCR (l : List Nat) : List Nat :=
  if l.getLast? = some 13 then l.dropLast else l

/-- Splitting loop for `str::lines`: `acc` holds the bytes of the current
line in reverse. Pieces terminated by a newline get a trailing `\r`
stripped; the final piece is kept as is. -/
def linesAux : List Nat → List Nat → List (List Nat)
  | [], acc => [acc.reverse]
  | b :: rest, acc =>
    if b = 10 then dropTrailCR acc.reverse :: linesAux rest []
    else linesAux rest (b :: acc)

/-- `str::lines` on a byte buffer: no lines for the empty string, and no
trailing empty line when the text ends with a final newline. -/
def linesOf (b : List Nat) : List (List Nat) :=
  if b = [] then []
  else if b.getLast? = some 10 then (linesAux b []).dropLast
  else linesAux b []

/-- `str::is_char_boundary`: index 0 is a boundary, the end of the string
is a boundary, and interior positions are boundaries iff the byte there is
not a UTF-8 continuation byte. -/
def isCharBoundary (p : List Nat) (i : Nat) : Bool :=
  if i = 0 then true
  else
    match p.get? i with
    | none => decide (i = p.length)
    | some b => decide (b < 128) || decide (192 ≤ b)

/-- `preview` (indexing/mod.rs lines 846-852): join the first up-to-8
lines with `"\n"`; if the result exceeds 800 bytes, `String::truncate(800)`
keeps the first 800 bytes — but panics when byte 800 is not a char
boundary (the documented `String::truncate` behavior in Rust). The panic is
modelled as `none`. -/
def previewM (chunk : List Nat) : Option (List Nat) :=
  let p := List.intercalate [10] ((linesOf chunk).take 8)
  if 800 < p.length then
    if isCharBoundary p 800 then some (p.take 800) else none
  else some p

/-!
State-machine model of the index directory. A filesystem state holds the
parsed contents of the files under `.codex/index/`. SHA-256 is abstracted
by the `Digest` inductive: the development only uses that the digest is a
deterministic function of the file content and that a real hex digest is
never the empty string (the minimal manifest of an empty build stores
`""` checksums, modelled by `Digest.emptyStr`).

The workspace scanner, chunker and embedding model are upstream of every
claim settled below; the build is therefore modelled from the accumulation
loop onward (indexing/mod.rs lines 284-517), taking as input the list of
per-chunk records with their embedder outputs. Floating-point numerics
(embeddings, cosine similarities, HNSW distances) are modelled over `Rat`,
with the similarity values produced by the external HNSW search and by the
`cosine` helper supplied as oracle inputs to the query model.
-/

/-- One line of `meta.jsonl` (the `MetaRow` struct of the source). The `sha256` field
(hex digest of the chunk text, unused by every claim) is elided. `endL`
stands for the source field `end`, a Lean keyword. -/
structure MetaRowM where
  id : Nat
  path : String
  startL : Nat
  endL : Nat
  lang : String
  preview : String
deriving DecidableEq

/-- Abstract SHA-256 hex digest of an index artifact. -/
inductive Digest where
  | emptyStr
  | shaVec (dim : Nat) (ids : List Nat) (vecs : List (List Rat))
  | shaMeta (rows : List MetaRowM)
deriving DecidableEq

/-- `manifest.json` restricted to the fields the claims touch (`engine`,
`model`, `metric`, `chunk_mode`, chunk config, repo info and the `files`
count are constant metadata elided from the model). -/
structure ManifestM where
  dim : Nat
  chunks : Nat
  chkVec : Digest
  chkMeta : Digest
  createdAt : Nat
  lastRefresh : Nat
deriving DecidableEq

/-- `analytics.json` (the `Analytics` struct of the source): u64 counters and two
optional timestamps (timestamps modelled as naturals). -/
structure AnalyticsM where
  queries : Nat
  hits : Nat
  misses : Nat
  lastQueryTs : Option Nat
  lastAttemptTs : Option Nat
deriving DecidableEq

/-- State of the index directory: the `lock` sentinel, the parsed contents
of `vectors.hnsw` (`dim`, ids, row vectors), `meta.jsonl`, the presence of
the HNSW graph pair, `manifest.json` and `analytics.json`; `none` means
the file is absent. -/
structure FS where
  lock : Bool
  vectors : Option (Nat × List Nat × List (List Rat))
  meta : Option (List MetaRowM)
  graphFiles : Bool
  manifest : Option ManifestM
  analytics : Option AnalyticsM
deriving DecidableEq

/-- `Analytics::default()`. -/
def analyticsDefault : AnalyticsM := ⟨0, 0, 0, none, none⟩

/-- `read_analytics`: the default record when the file is absent. -/
def readAnalyticsF (s : FS) : AnalyticsM := s.analytics.getD analyticsDefault

/-- `update_analytics`: read (defaulting), transform, persist via
tmp-file + rename. -/
def updateAnalyticsF (f : AnalyticsM → AnalyticsM) (s : FS) : FS :=
  { s with analytics := some (f (readAnalyticsF s)) }

/-- Input to the build accumulation loop: one chunk together with the
embedder output for it (`emb`). Path, line range, language and preview are
computed by the upstream scanner/chunker stages. -/
structure Chunk where
  path : String
  startL : Nat
  endL : Nat
  lang : String
  preview : String
  emb : List Rat
deriving DecidableEq

/-- Sum of squares, the quantity whose square root the build compares
against zero (`norm == 0.0`; `f32::sqrt` of a nonnegative value is zero
exactly on zero). -/
def sumSq (v : List Rat) : Rat := (v.map (fun x => x * x)).sum

/-- In-memory accumulator of the build loop (`next_id`, `all_ids`,
`all_vecs`, `meta_rows`). -/
structure BuildAcc where
  nextId : Nat
  ids : List Nat
  vecs : List (List Rat)
  rows : List MetaRowM
deriving DecidableEq

/-- One iteration of the build loop (indexing/mod.rs lines 356-395):
empty embeddings and zero-norm embeddings are dropped; otherwise the id is
allocated (after retention) and the id, vector and meta row are pushed.
The L2 normalization of the retained vector (an `f32` square root) is not
modelled; no claim depends on the stored float values. -/
def buildStep (acc : BuildAcc) (c : Chunk) : BuildAcc :=
  if c.emb = [] then acc
  else if sumSq c.emb = 0 then acc
  else
    { nextId := acc.nextId + 1,
      ids := acc.ids ++ [acc.nextId],
      vecs := acc.vecs ++ [c.emb],
      rows := acc.rows ++ [⟨acc.nextId, c.path, c.startL, c.endL, c.lang, c.preview⟩] }

/-- The retention test of the build loop, as a Boolean predicate. -/
def retained (c : Chunk) : Bool :=
  !(decide (c.emb = [])) && !(decide (sumSq c.emb = 0))

/-- `build` (indexing/mod.rs lines 284-517) from the accumulation loop
onward. `BuildLock::acquire` uses exclusive create: it fails iff the lock
file exists, and the failure is swallowed (`Err(_) => None`) — the build
proceeds either way. An attempt timestamp is recorded; then either the
minimal manifest (zero vectors) or the vector file, meta file, HNSW graph
pair and full manifest are written. The guard removes the lock file on
drop only when it was acquired. -/
def buildM (chunks : List Chunk) (now : Nat) (s : FS) : FS :=
  let acquired := !s.lock
  let s1 : FS := { s with lock := true }
  let s2 := updateAnalyticsF (fun a => { a with lastAttemptTs := some now }) s1
  let acc := chunks.foldl buildStep ⟨0, [], [], []⟩
  if acc.vecs = [] then
    let s3 := { s2 with manifest := some ⟨0, 0, Digest.emptyStr, Digest.emptyStr, now, now⟩ }
    if acquired then { s3 with lock := false } else s3
  else
    let dim := (acc.vecs.headD []).length
    let s3 := { s2 with
      vectors := some (dim, acc.ids, acc.vecs),
      meta := some acc.rows,
      graphFiles := true,
      manifest := some ⟨dim, acc.ids.length, Digest.shaVec dim acc.ids acc.vecs,
        Digest.shaMeta acc.rows, now, now⟩ }
    if acquired then { s3 with lock := false } else s3

/-- Result of `verify` (`Ok` prints, `Err` exits non-zero). -/
inductive VerifyResult where
  | ok
  | err
deriving DecidableEq

/-- `verify` (indexing/mod.rs lines 519-529): parse the manifest,
recompute the SHA-256 of `vectors.hnsw` and `meta.jsonl` (failing when
either file is absent) and compare both against the manifest checksums. -/
def verifyM (s : FS) : VerifyResult :=
  match s.manifest with
  | none => VerifyResult.err
  | some m =>
    match s.vectors, s.meta with
    | some v, some rows =>
      if Digest.shaVec v.1 v.2.1 v.2.2 = m.chkVec ∧ Digest.shaMeta rows = m.chkMeta
      then VerifyResult.ok else VerifyResult.err
    | _, _ => VerifyResult.err

/-- The u64 modulus (counter arithmetic wraps in release builds). -/
def u64Mod : Nat := 2 ^ 64

/-- The analytics update performed at the end of a completed query (both
the miss branch, indexing/mod.rs lines 1105-1112, and the hit branch,
lines 1214-1226): `queries += 1`, `hits += hit`, and `misses` is
recomputed as `queries.saturating_sub(hits)` (natural subtraction);
`last_query_ts` is set. `isHit` is the comparison made by the source of the top
similarity against the threshold. -/
def queryAnalyticsUpdate (isHit : Bool) (now : Nat) (a : AnalyticsM) : AnalyticsM :=
  let q := (a.queries + 1) % u64Mod
  let h := (a.hits + (if isHit then 1 else 0)) % u64Mod
  { queries := q, hits := h, misses := q - h, lastQueryTs := some now,
    lastAttemptTs := a.lastAttemptTs }

/-- `min_score_threshold` (indexing/mod.rs lines 1017-1023). The parse of
`CODEX_INDEX_RETRIEVAL_THRESHOLD` is modelled as an `Option Rat` (`none`
when the variable is unset or does not parse as a float); a parsed value
is clamped into `[0, 1]` (`f32::clamp` on non-NaN input is
`max 0 (min v 1)`), and the default is `0.60`. -/
def minScoreThreshold (env : Option Rat) : Rat :=
  match env with
  | some v => max 0 (min v 1)
  | none => 3 / 5

/-- The `--output` formats. -/
inductive OutputFmt where
  | text
  | json
  | xml
deriving DecidableEq

/-- `IndexQueryArgs` (main.rs lines 152-174). -/
structure QueryArgsM where
  query : String
  k : Nat
  showSnippets : Bool
  output : OutputFmt
  noLineNumbers : Bool
  lineNumberWidth : Nat
  diff : Bool
deriving DecidableEq

/-- `SearchCodeArgs` (main.rs lines 192-214): field-for-field the same
flags as `IndexQueryArgs`. -/
structure SearchCodeArgsM where
  query : String
  k : Nat
  showSnippets : Bool
  output : OutputFmt
  noLineNumbers : Bool
  lineNumberWidth : Nat
  diff : Bool
deriving DecidableEq

/-- The `IndexQueryArgs` built by the `search-code` arm of `main`
(main.rs lines 241-259): every field is copied across unchanged. -/
def searchCodeToQueryArgs (a : SearchCodeArgsM) : QueryArgsM :=
  { query := a.query, k := a.k, showSnippets := a.showSnippets, output := a.output,
    noLineNumbers := a.noLineNumbers, lineNumberWidth := a.lineNumberWidth, diff := a.diff }

/-- `str::lines` helper for snippet previews: strip one trailing carriage
return from a line terminated by `\n`. -/
def dropTrailCRChar (l : List Char) : List Char :=
  if l.getLast? = some '\r' then l.dropLast else l

/-- `str::lines` splitting loop over characters (`acc` is the current line
reversed). -/
def linesAuxChar : List Char → List Char → List (List Char)
  | [], acc => [acc.reverse]
  | c :: rest, acc =>
    if c = '\n' then dropTrailCRChar acc.reverse :: linesAuxChar rest []
    else linesAuxChar rest (c :: acc)

/-- The Rust `str::lines().collect()`: empty for the empty string; a final
line ending produces no trailing empty line. -/
def rustLines (s : String) : List String :=
  if s.data = [] then []
  else if s.data.getLast? = some '\n' then
    ((linesAuxChar s.data []).dropLast).map (fun l => String.mk l)
  else (linesAuxChar s.data []).map (fun l => String.mk l)

/-- One rendered result record (`out_items` entry, indexing/mod.rs lines
1126-1134): rank, score, path, line range, language, and the snippet
lines when `--show-snippets` was given. The printed text output is a
function of these records together with the format and formatting flags. -/
structure ItemM where
  rank : Nat
  score : Rat
  path : String
  startL : Nat
  endL : Nat
  lang : String
  snippet : Option (List String)
deriving DecidableEq

/-- Stable descending insertion used to model `Vec::sort_by` with the
comparator `b.1.partial_cmp(&a.1)` (descending by score, ties keeping
input order; `partial_cmp` never returns `None` in the rational model). -/
def insertDesc (x : Nat × Rat) : List (Nat × Rat) → List (Nat × Rat)
  | [] => [x]
  | y :: ys => if y.2 < x.2 then x :: y :: ys else y :: insertDesc x ys

/-- Stable descending sort of `(index, similarity)` pairs. -/
def sortScoresDesc (l : List (Nat × Rat)) : List (Nat × Rat) :=
  l.foldl (fun acc x => insertDesc x acc) []

/-- The `scores` vector of `query` before the final sort (indexing/mod.rs
lines 1059-1085). On the HNSW path the distance `d` of each neighbor becomes
the similarity `1 - d`; `ann` is the neighbor list returned by the
external graph search. On the linear path the cosine similarity of the
query with row `i` (an `f32` computation involving square roots) is the
oracle `lin i`; the list is sorted descending and truncated to
`min k rows`. -/
def queryScores (k : Nat) (useAnn : Bool) (ann : List (Nat × Rat)) (lin : Nat → Rat)
    (nRows : Nat) : List (Nat × Rat) :=
  if useAnn then ann.map (fun p => (p.1, 1 - p.2))
  else (sortScoresDesc ((List.range nRows).map (fun i => (i, lin i)))).take (min k nRows)

/-- `load_meta` builds a `HashMap` by inserting rows in file order (later
duplicate ids overwrite earlier ones); `meta.get(&id)` therefore finds the
last row with the given id. -/
def metaLookup (rows : List MetaRowM) (id : Nat) : Option MetaRowM :=
  rows.reverse.find? (fun r => r.id == id)

/-- The `out_items` loop (indexing/mod.rs lines 1116-1136): for each kept
score `(i, score)` with its enumeration rank, index `ids[i]` (a panic when
`i` is out of range, modelled as `none` for the whole computation), look
the id up in the meta map (a missing row skips the entry), and record the
rendered fields, with snippet lines exactly when `--show-snippets`. -/
def buildItemsGo (showSnip : Bool) (ids : List Nat) (rows : List MetaRowM) :
    Nat → List (Nat × Rat) → Option (List ItemM)
  | _, [] => some []
  | rank, p :: rest =>
    match ids.get? p.1 with
    | none => none
    | some id =>
      match buildItemsGo showSnip ids rows (rank + 1) rest with
      | none => none
      | some items =>
        match metaLookup rows id with
        | none => some items
        | some row =>
          some (⟨rank, p.2, row.path, row.startL, row.endL, row.lang,
            if showSnip then some (rustLines row.preview) else none⟩ :: items)

/-- The kept results (`scores.iter().take(k)` with
`k = args.k.min(scores.len())`) rendered into records. -/
def buildItems (args : QueryArgsM) (scores : List (Nat × Rat)) (ids : List Nat)
    (rows : List MetaRowM) : Option (List ItemM) :=
  buildItemsGo args.showSnippets ids rows 0 (scores.take (min args.k scores.length))

/-- Observable outcome of one `query` invocation. `err` is a non-zero exit
with no result output and no analytics update (load failure, dimension
mismatch, or the out-of-range indexing panic); `empty` is the
per-format empty output (text sentinel line, `[]`, `<results/>`);
`results` carries the data that the per-format rendering loops (indexing/
mod.rs lines 1138-1213) print. -/
inductive QueryOut where
  | err
  | empty (fmt : OutputFmt)
  | results (fmt : OutputFmt) (noLineNumbers : Bool) (width : Nat) (diff : Bool)
      (items : List ItemM)
deriving DecidableEq

/-- `query` (indexing/mod.rs lines 1033-1228). Loads manifest, vector file
and meta file (any absence is an error); embeds the query (the embedder
output is the oracle `qv`; its L2 normalization only affects the score
oracles) and fails on dimension mismatch; computes scores (HNSW path when
both graph files exist, else linear scan), sorts them descending, applies
the confidence gate, renders, and updates analytics. -/
def queryM (args : QueryArgsM) (qv : List Rat) (ann : List (Nat × Rat)) (lin : Nat → Rat)
    (env : Option Rat) (now : Nat) (s : FS) : QueryOut × FS :=
  match s.manifest with
  | none => (QueryOut.err, s)
  | some m =>
    match s.vectors with
    | none => (QueryOut.err, s)
    | some v =>
      match s.meta with
      | none => (QueryOut.err, s)
      | some rows =>
        if qv.length ≠ m.dim then (QueryOut.err, s)
        else
          let ids := v.2.1
          let scores := sortScoresDesc (queryScores args.k s.graphFiles ann lin ids.length)
          let threshold := minScoreThreshold env
          let top := (scores.head?.map Prod.snd).getD 0
          if scores.isEmpty || decide (top < threshold) then
            (QueryOut.empty args.output,
             updateAnalyticsF (queryAnalyticsUpdate (decide (threshold ≤ top)) now) s)
          else
            match buildItems args scores ids rows with
            | none => (QueryOut.err, s)
            | some items =>
              (QueryOut.results args.output args.noLineNumbers args.lineNumberWidth args.diff
                 items,
               updateAnalyticsF (queryAnalyticsUpdate
                 (match scores.head? with
                  | some p => decide (threshold ≤ p.2)
                  | none => false) now) s)

/-- The `search-code` subcommand (main.rs lines 241-259): construct an
`IndexQueryArgs` from the parsed `SearchCodeArgs` and dispatch to the
index query. -/
def searchCodeM (a : SearchCodeArgsM) (qv : List Rat) (ann : List (Nat × Rat))
    (lin : Nat → Rat) (env : Option Rat) (now : Nat) (s : FS) : QueryOut × FS :=
  queryM (searchCodeToQueryArgs a) qv ann lin env now s

/-- A fresh repository: empty index directory. -/
def fsInit : FS := ⟨false, none, none, false, none, none⟩

/-- An index directory in which the `lock` sentinel already exists. -/
def fsLocked : FS := ⟨true, none, none, false, none, none⟩

/-- A chunk whose (nonzero) embedding is retained by the build. -/
def chunkA : Chunk := ⟨"a.rs", 1, 2, "rust", "fn main", [1]⟩

/-- Concrete query arguments with default flags and text output. -/
def argsText : QueryArgsM := ⟨"anything", 8, false, OutputFmt.text, false, 6, false⟩

/-- Concrete `search-code` arguments with default flags. -/
def searchArgsA : SearchCodeArgsM := ⟨"q", 8, false, OutputFmt.text, false, 6, false⟩

/-! ## Theorems -/

theorem length_leBytes (k n : Nat) : (leBytes k n).length = k := by
  induction k generalizing n with
  | zero => rfl
  | succ k ih => simp [leBytes, ih]

theorem leVal_leBytes (k n : Nat) (h : n < 256 ^ k) : leVal (leBytes k n) = n := by
  induction k generalizing n with
  | zero => simp [pow_zero, Nat.lt_one_iff] at h; simp [h, leBytes, leVal]
  | succ k ih =>
    have hdiv : n / 256 < 256 ^ k := by
      rw [Nat.div_lt_iff_lt_mul (by norm_num)]
      calc n < 256 ^ (k + 1) := h
        _ = 256 ^ k * 256 := by ring
    simp [leBytes, leVal, ih (n / 256) hdiv]
    omega

theorem take_append_exact (k : Nat) (a b : List Nat) (h : a.length = k) :
    (a ++ b).take k = a := by
  subst h; simp [List.take_left]

theorem drop_append_exact (k : Nat) (a b : List Nat) (h : a.length = k) :
    (a ++ b).drop k = b := by
  subst h; simp [List.drop_left]

theorem readExact_append (k : Nat) (a b : List Nat) (h : a.length = k) :
    readExact k (a ++ b) = some (a, b) := by
  have hk : k ≤ (a ++ b).length := by simp only [List.length_append]; omega
  rw [readExact, if_pos hk, take_append_exact k a b h, drop_append_exact k a b h]

theorem readIds_append (ids : List Nat) (rest : List Nat) (h : ∀ i ∈ ids, i < 2 ^ 64) :
    readIds ids.length (ids.flatMap (leBytes 8) ++ rest) = some (ids, rest) := by
  induction ids with
  | nil => simp [readIds]
  | cons i tl ih =>
    have hi : i < 256 ^ 8 := by
      have := h i (by simp)
      norm_num at this ⊢
      omega
    have htl : ∀ j ∈ tl, j < 2 ^ 64 := fun j hj => h j (by simp [hj])
    simp only [List.flatMap_cons, List.append_assoc, List.length_cons, readIds,
      readExact_append 8 (leBytes 8 i) _ (length_leBytes 8 i), ih htl,
      leVal_leBytes 8 i hi]

theorem readF32s_append (data : List Nat) (extra : List Nat) (h : ∀ x ∈ data, x < 2 ^ 32) :
    readF32s data.length (data.flatMap (leBytes 4) ++ extra) = data := by
  induction data with
  | nil => rfl
  | cons x tl ih =>
    have hx : x < 256 ^ 4 := by
      have := h x (by simp)
      norm_num at this ⊢
      omega
    have htl : ∀ y ∈ tl, y < 2 ^ 32 := fun y hy => h y (by simp [hy])
    simp only [List.flatMap_cons, List.append_assoc, List.length_cons, readF32s,
      take_append_exact 4 (leBytes 4 x) _ (length_leBytes 4 x),
      drop_append_exact 4 (leBytes 4 x) _ (length_leBytes 4 x),
      leVal_leBytes 4 x hx, ih htl]

theorem length_flatMap_leBytes (k : Nat) (l : List Nat) :
    (l.flatMap (leBytes k)).length = k * l.length := by
  induction l with
  | nil => simp
  | cons x tl ih => simp [List.flatMap_cons, ih, length_leBytes]; ring

/-- C8: writing the vector file (magic VEC0, dim u32 LE, row count u64 LE,
ids u64 LE, vectors row-major f32 LE) and reading it back yields exactly
the original ids and data, whenever the data length is `ids.length * dim`
and all values fit their machine-integer widths. -/
theorem vectors_roundtrip (dim : Nat) (ids data : List Nat)
    (hdim : dim < 2 ^ 32) (hrows : ids.length < 2 ^ 64)
    (hid : ∀ i ∈ ids, i < 2 ^ 64) (hdata : ∀ x ∈ data, x < 2 ^ 32)
    (hlen : data.length = ids.length * dim) :
    loadVectors (writeVectorsFile dim ids data) = some (ids, data) := by
  have hdim256 : dim < 256 ^ 4 := by norm_num; omega
  have hrows256 : ids.length < 256 ^ 8 := by norm_num at hrows ⊢; omega
  have hle : ids.length * dim * 4 ≤ (data.flatMap (leBytes 4)).length := by
    rw [length_flatMap_leBytes 4 data, hlen]; ring_nf; omega
  have hf32 : readF32s (ids.length * dim) (data.flatMap (leBytes 4)) = data := by
    have := readF32s_append data [] hdata
    simp only [List.append_nil] at this
    rw [← hlen, this]
  simp only [writeVectorsFile, loadVectors, List.append_assoc,
    readExact_append 4 magicVEC0 _ rfl,
    readExact_append 4 (leBytes 4 dim) _ (length_leBytes 4 dim),
    readExact_append 8 (leBytes 8 ids.length) _ (length_leBytes 8 ids.length),
    leVal_leBytes 4 dim hdim256, leVal_leBytes 8 ids.length hrows256,
    readIds_append ids _ hid, hle, if_pos, hf32]

/-- C8 witness: a concrete round trip with `dim = 2`, two rows. -/
theorem vectors_roundtrip_witness :
    loadVectors (writeVectorsFile 2 [3, 4] [10, 20, 30, 40]) = some ([3, 4], [10, 20, 30, 40]) :=
  vectors_roundtrip 2 [3, 4] [10, 20, 30, 40] (by decide) (by decide) (by decide) (by decide)
    (by decide)

theorem isPrefixOf_take8 (p buf : List Nat) (hp : p.length ≤ 8) :
    p.isPrefixOf (buf.take (min 8 buf.length)) = p.isPrefixOf buf := by
  rcases le_or_lt buf.length 8 with h | h
  · rw [min_eq_right h, List.take_length]
  · rw [min_eq_left h.le, Bool.eq_iff_iff]
    simp only [List.isPrefixOf_iff_prefix]
    constructor
    · exact fun hpre => hpre.trans (List.take_prefix 8 buf)
    · exact fun hpre => List.prefix_take_iff.mpr ⟨hpre, hp⟩

/-- C9 (counterexample): the two-byte buffer `b"MZ"` satisfies the predicate of the claim (its prefix is the `MZ` magic) but `looks_binary` classifies it
as text, because the magic comparison only runs on buffers of at least 4
bytes. -/
theorem looks_binary_mz_counterexample :
    claimBinary [77, 90] = true ∧ looksBinary [77, 90] = false := by decide

/-- C9 (amended): `looks_binary` returns true exactly when the buffer has
at least 4 bytes and starts with one of the five magic numbers, or the NUL
count exceeds 10% of the length, or the bytes are not valid UTF-8; a
PNG-magic buffer is binary and a valid-UTF-8 buffer with 9% NUL bytes is
text. -/
theorem looks_binary_characterization :
    (∀ buf : List Nat,
      looksBinary buf =
        ((decide (4 ≤ buf.length) &&
          (pdfMagic.isPrefixOf buf || zipMagic.isPrefixOf buf || elfMagic.isPrefixOf buf
            || pngMagic.isPrefixOf buf || mzMagic.isPrefixOf buf))
          || decide (nulCount buf * 10 > buf.length)
          || !validUtf8 buf))
    ∧ looksBinary (pngMagic ++ [104, 105]) = true
    ∧ looksBinary (List.replicate 9 0 ++ List.replicate 91 97) = false := by
  refine ⟨fun buf => ?_, by decide, by decide⟩
  have hnul : (decide (nulCount buf * 10 > max buf.length 1))
      = decide (nulCount buf * 10 > buf.length) := by
    rcases Nat.eq_zero_or_pos buf.length with h0 | h0
    · have hb : buf = [] := List.length_eq_zero.mp h0
      subst hb; decide
    · rw [max_eq_left h0]
  unfold looksBinary
  by_cases h4 : 4 ≤ buf.length
  · rw [if_pos h4]
    simp only [isPrefixOf_take8 pdfMagic buf (by decide),
      isPrefixOf_take8 zipMagic buf (by decide), isPrefixOf_take8 elfMagic buf (by decide),
      isPrefixOf_take8 pngMagic buf (by decide), isPrefixOf_take8 mzMagic buf (by decide),
      hnul]
    simp [h4]
  · rw [if_neg h4]
    simp only [hnul, decide_eq_false h4, Bool.false_and, Bool.false_or]

set_option maxRecDepth 100000 in
/-- C10: `preview` is not total — on the valid-UTF-8 chunk consisting of
799 `'a'` bytes followed by `'é'` (`0xC3 0xA9`), the joined first line is
801 bytes long and byte offset 800 falls inside the two-byte character, so
`String::truncate(800)` panics. -/
theorem preview_truncate_panics :
    validUtf8 (List.replicate 799 97 ++ [195, 169]) = true
    ∧ previewM (List.replicate 799 97 ++ [195, 169]) = none := by decide

/-- C1: with the lock sentinel already present, `build` does not abort: it
swallows the failed exclusive create and performs the full build anyway,
rewriting the vector file, meta file, manifest and analytics (and the
pre-existing lock file is left in place). This contradicts the spec and
the comment in the source itself at the acquire site. -/
theorem build_ignores_existing_lock :
    fsLocked.lock = true
    ∧ (buildM [chunkA] 3 fsLocked).vectors ≠ fsLocked.vectors
    ∧ (buildM [chunkA] 3 fsLocked).meta ≠ fsLocked.meta
    ∧ (buildM [chunkA] 3 fsLocked).manifest ≠ fsLocked.manifest
    ∧ (buildM [chunkA] 3 fsLocked).analytics ≠ fsLocked.analytics
    ∧ (buildM [chunkA] 3 fsLocked).lock = true := by
  have hacc : List.foldl buildStep ⟨0, [], [], []⟩ [chunkA]
      = ⟨1, [0], [[1]], [⟨0, "a.rs", 1, 2, "rust", "fn main"⟩]⟩ := by
    norm_num [buildStep, chunkA, sumSq]
  refine ⟨rfl, ?_, ?_, ?_, ?_, ?_⟩ <;>
    simp [buildM, hacc, fsLocked, updateAnalyticsF, readAnalyticsF, analyticsDefault]

/-- C2 (counterexample): a successful build of an empty repository writes
the minimal manifest (dim 0, zero chunks, empty checksums) but no vector
or meta file, so the immediately following `verify` fails. -/
theorem build_verify_empty_counterexample :
    (buildM [] 0 fsInit).manifest
      = some ⟨0, 0, Digest.emptyStr, Digest.emptyStr, 0, 0⟩
    ∧ verifyM (buildM [] 0 fsInit) = VerifyResult.err := by decide

/-- C2 (amended): whenever the build retains at least one vector, the
immediately following `verify` succeeds: the checksums recorded in the
manifest are those of the just-written vector and meta files. -/
theorem build_then_verify_ok_of_retained (chunks : List Chunk) (now : Nat) (s : FS)
    (h : (chunks.foldl buildStep ⟨0, [], [], []⟩).vecs ≠ []) :
    verifyM (buildM chunks now s) = VerifyResult.ok := by
  unfold buildM
  rw [if_neg h]
  cases hl : s.lock <;> simp [verifyM]

/-- C2 witness: one retained chunk; build then verify succeeds. -/
theorem build_then_verify_ok_witness :
    verifyM (buildM [chunkA] 5 fsInit) = VerifyResult.ok :=
  build_then_verify_ok_of_retained [chunkA] 5 fsInit
    (by norm_num [buildStep, chunkA, sumSq])

/-- C3 (counterexample): after a successful build of an empty repository
(minimal manifest, no vector file), a query does not emit the empty-format
output and does not increment `misses`: loading `vectors.hnsw` fails, so
`query` returns an error before printing or touching analytics. -/
theorem query_after_empty_build_counterexample :
    (queryM argsText [1] [] (fun _ => 0) none 1 (buildM [] 0 fsInit)).1 = QueryOut.err
    ∧ (queryM argsText [1] [] (fun _ => 0) none 1 (buildM [] 0 fsInit)).2
        = buildM [] 0 fsInit := by
  constructor <;> rfl

/-- C3 (amended): for every query invocation against the index produced by
a build that stored zero chunks in a state without a vector file, `query`
fails with an error (missing `vectors.hnsw`), produces no output record
and leaves the whole state — analytics included — unchanged. -/
theorem query_errors_when_vectors_missing (args : QueryArgsM) (qv : List Rat)
    (ann : List (Nat × Rat)) (lin : Nat → Rat) (env : Option Rat) (qnow bnow : Nat) (s : FS)
    (h : s.vectors = none) :
    (queryM args qv ann lin env qnow (buildM [] bnow s)).1 = QueryOut.err
    ∧ (queryM args qv ann lin env qnow (buildM [] bnow s)).2 = buildM [] bnow s := by
  have hb : (buildM [] bnow s).vectors = none
      ∧ (buildM [] bnow s).manifest
          = some ⟨0, 0, Digest.emptyStr, Digest.emptyStr, bnow, bnow⟩ := by
    unfold buildM
    simp only [List.foldl_nil]
    cases hl : s.lock <;> simp [updateAnalyticsF, h]
  obtain ⟨hv, hm⟩ := hb
  unfold queryM
  rw [hm, hv]
  exact ⟨rfl, rfl⟩

/-- C3 witness for the amended claim, at a fresh repository. -/
theorem query_errors_when_vectors_missing_witness :
    (queryM argsText [1] [] (fun _ => 0) none 2 (buildM [] 0 fsInit)).1 = QueryOut.err
    ∧ (queryM argsText [1] [] (fun _ => 0) none 2 (buildM [] 0 fsInit)).2
        = buildM [] 0 fsInit :=
  query_errors_when_vectors_missing argsText [1] [] (fun _ => 0) none 2 0 fsInit rfl

theorem buildStep_not_retained (acc : BuildAcc) (c : Chunk) (h : retained c = false) :
    buildStep acc c = acc := by
  unfold buildStep
  unfold retained at h
  by_cases h1 : c.emb = []
  · rw [if_pos h1]
  · by_cases h2 : sumSq c.emb = 0
    · rw [if_neg h1, if_pos h2]
    · simp [h1, h2] at h

theorem buildStep_retained (acc : BuildAcc) (c : Chunk) (h : retained c = true) :
    buildStep acc c = ⟨acc.nextId + 1, acc.ids ++ [acc.nextId], acc.vecs ++ [c.emb],
      acc.rows ++ [⟨acc.nextId, c.path, c.startL, c.endL, c.lang, c.preview⟩]⟩ := by
  unfold retained at h
  simp only [Bool.and_eq_true, Bool.not_eq_true', decide_eq_false_iff_not] at h
  unfold buildStep
  rw [if_neg h.1, if_neg h.2]

theorem buildStep_fold (chunks : List Chunk) :
    ∀ (n : Nat) (I : List Nat) (V : List (List Rat)) (R : List MetaRowM),
      (List.foldl buildStep ⟨n, I, V, R⟩ chunks).nextId
          = n + (chunks.filter retained).length
      ∧ (List.foldl buildStep ⟨n, I, V, R⟩ chunks).ids
          = I ++ List.range' n (chunks.filter retained).length
      ∧ (List.foldl buildStep ⟨n, I, V, R⟩ chunks).rows.map MetaRowM.id
          = R.map MetaRowM.id ++ List.range' n (chunks.filter retained).length
      ∧ (List.foldl buildStep ⟨n, I, V, R⟩ chunks).vecs.length
          = V.length + (chunks.filter retained).length := by
  induction chunks with
  | nil => intro n I V R; simp
  | cons c tl ih =>
    intro n I V R
    cases hr : retained c with
    | false =>
      rw [List.foldl_cons, buildStep_not_retained _ c hr, List.filter_cons,
        if_neg (by simp [hr])]
      exact ih n I V R
    | true =>
      rw [List.foldl_cons, buildStep_retained _ c hr, List.filter_cons,
        if_pos (by simp [hr])]
      obtain ⟨h1, h2, h3, h4⟩ := ih (n + 1) (I ++ [n]) (V ++ [c.emb])
        (R ++ [⟨n, c.path, c.startL, c.endL, c.lang, c.preview⟩])
      refine ⟨?_, ?_, ?_, ?_⟩
      · rw [h1]; simp only [List.length_cons]; omega
      · rw [h2]; simp [List.range'_succ]
      · rw [h3]; simp [List.range'_succ]
      · rw [h4]
        have hv : (V ++ [c.emb]).length = V.length + 1 := by simp
        rw [hv]
        simp only [List.length_cons]
        omega

/-- C5: after the build accumulation loop, the recorded ids (both the id
column destined for the vector file and the `id` fields of the meta rows)
form exactly `{0, …, n−1}` in ascending order with no gaps or duplicates,
where `n` is the number of retained chunks — dropped embeddings (empty or
zero-norm) never consume an id, and the vector count matches the id
count. -/
theorem build_ids_are_range (chunks : List Chunk) :
    (List.foldl buildStep ⟨0, [], [], []⟩ chunks).ids
        = List.range (chunks.filter retained).length
    ∧ (List.foldl buildStep ⟨0, [], [], []⟩ chunks).rows.map MetaRowM.id
        = (List.foldl buildStep ⟨0, [], [], []⟩ chunks).ids
    ∧ (List.foldl buildStep ⟨0, [], [], []⟩ chunks).vecs.length
        = (List.foldl buildStep ⟨0, [], [], []⟩ chunks).ids.length := by
  obtain ⟨h1, h2, h3, h4⟩ := buildStep_fold chunks 0 [] [] []
  rw [List.range_eq_range']
  refine ⟨by rw [h2]; simp, by rw [h3, h2]; simp, ?_⟩
  rw [h4, h2]
  simp [List.length_range']

/-- C7 (counterexample): the update does not add 1 to `misses`; it
recomputes `misses = queries − hits`. Starting from the analytics record
`⟨queries 0, hits 0, misses 5⟩`, a completed miss query yields `misses = 1`,
not `misses = 6`, even though `hits` is unchanged. -/
theorem analytics_update_counterexample :
    queryAnalyticsUpdate false 7 ⟨0, 0, 5, none, none⟩
      = ⟨1, 0, 1, some 7, none⟩
    ∧ (queryAnalyticsUpdate false 7 ⟨0, 0, 5, none, none⟩).misses ≠ 5 + 1 := by
  constructor <;> decide

/-- C7 (amended): on every analytics state satisfying the reachable-state
invariant (`hits ≤ queries` and `misses = queries − hits`, with no counter
overflow pending), the query-completion update increments `queries` by 1,
adds 1 to exactly one of `hits`/`misses` (chosen by the hit flag, i.e. the
threshold comparison), leaves the other unchanged, sets `last_query_ts`
and preserves `last_attempt_ts`. -/
theorem analytics_update_characterization (a : AnalyticsM) (isHit : Bool) (now : Nat)
    (h1 : a.hits ≤ a.queries) (h2 : a.misses = a.queries - a.hits)
    (h3 : a.queries + 1 < u64Mod) :
    (queryAnalyticsUpdate isHit now a).queries = a.queries + 1
    ∧ (queryAnalyticsUpdate isHit now a).lastQueryTs = some now
    ∧ (queryAnalyticsUpdate isHit now a).lastAttemptTs = a.lastAttemptTs
    ∧ (isHit = true → (queryAnalyticsUpdate isHit now a).hits = a.hits + 1
        ∧ (queryAnalyticsUpdate isHit now a).misses = a.misses)
    ∧ (isHit = false → (queryAnalyticsUpdate isHit now a).hits = a.hits
        ∧ (queryAnalyticsUpdate isHit now a).misses = a.misses + 1) := by
  have hmod : u64Mod = 18446744073709551616 := by norm_num [u64Mod]
  have h3n : a.queries + 1 < 18446744073709551616 := by rw [hmod] at h3; exact h3
  cases isHit with
  | true =>
    have hblt : a.hits + 1 < u64Mod := by rw [hmod]; omega
    have e : queryAnalyticsUpdate true now a
        = ⟨a.queries + 1, a.hits + 1, (a.queries + 1) - (a.hits + 1), some now,
           a.lastAttemptTs⟩ := by
      unfold queryAnalyticsUpdate
      norm_num [Nat.mod_eq_of_lt h3, Nat.mod_eq_of_lt hblt]
    rw [e]
    refine ⟨rfl, rfl, rfl,
      fun _ => ⟨rfl, by show a.queries + 1 - (a.hits + 1) = a.misses; omega⟩, ?_⟩
    intro h
    exact absurd h (by simp)
  | false =>
    have hblt : a.hits < u64Mod := by rw [hmod]; omega
    have e : queryAnalyticsUpdate false now a
        = ⟨a.queries + 1, a.hits, (a.queries + 1) - a.hits, some now,
           a.lastAttemptTs⟩ := by
      unfold queryAnalyticsUpdate
      norm_num [Nat.mod_eq_of_lt h3, Nat.mod_eq_of_lt hblt]
    rw [e]
    refine ⟨rfl, rfl, rfl, ?_,
      fun _ => ⟨rfl, by show a.queries + 1 - a.hits = a.misses + 1; omega⟩⟩
    intro h
    exact absurd h (by simp)

/-- C7 witness: a reachable state with 3 queries, 1 hit, 2 misses; one
more miss. -/
theorem analytics_update_characterization_witness :
    (queryAnalyticsUpdate false 9 ⟨3, 1, 2, none, none⟩).queries = 3 + 1
    ∧ (queryAnalyticsUpdate false 9 ⟨3, 1, 2, none, none⟩).hits = 1
    ∧ (queryAnalyticsUpdate false 9 ⟨3, 1, 2, none, none⟩).misses = 2 + 1 := by
  have h := analytics_update_characterization ⟨3, 1, 2, none, none⟩ false 9
    (by decide) (by decide) (by norm_num [u64Mod])
  exact ⟨h.1, (h.2.2.2.2 rfl).1, (h.2.2.2.2 rfl).2⟩

theorem mem_insertDesc (x y : Nat × Rat) (l : List (Nat × Rat)) :
    y ∈ insertDesc x l → y = x ∨ y ∈ l := by
  induction l with
  | nil =>
    intro h
    simp [insertDesc] at h
    exact Or.inl h
  | cons a tl ih =>
    intro h
    unfold insertDesc at h
    by_cases hc : a.2 < x.2
    · rw [if_pos hc] at h
      rcases List.mem_cons.mp h with h1 | h2
      · exact Or.inl h1
      · exact Or.inr h2
    · rw [if_neg hc] at h
      rcases List.mem_cons.mp h with h1 | h2
      · exact Or.inr (List.mem_cons.mpr (Or.inl h1))
      · rcases ih h2 with h3 | h4
        · exact Or.inl h3
        · exact Or.inr (List.mem_cons.mpr (Or.inr h4))

theorem mem_sortScoresDesc (l : List (Nat × Rat)) (y : Nat × Rat) :
    y ∈ sortScoresDesc l → y ∈ l := by
  unfold sortScoresDesc
  suffices h : ∀ acc, y ∈ List.foldl (fun acc x => insertDesc x acc) acc l
      → y ∈ acc ∨ y ∈ l by
    intro hy
    rcases h [] hy with h1 | h2
    · simp at h1
    · exact h2
  induction l with
  | nil => intro acc h; exact Or.inl h
  | cons a tl ih =>
    intro acc h
    rcases ih (insertDesc a acc) h with h1 | h2
    · rcases mem_insertDesc a y acc h1 with h3 | h4
      · exact Or.inr (by simp [h3])
      · exact Or.inl h4
    · exact Or.inr (List.mem_cons.mpr (Or.inr h2))

theorem buildItemsGo_isSome (showSnip : Bool) (ids : List Nat) (rows : List MetaRowM)
    (l : List (Nat × Rat)) (h : ∀ p ∈ l, p.1 < ids.length) :
    ∀ rank, ∃ items, buildItemsGo showSnip ids rows rank l = some items := by
  induction l with
  | nil => intro rank; exact ⟨[], rfl⟩
  | cons p tl ih =>
    intro rank
    have hp : p.1 < ids.length := h p (by simp)
    obtain ⟨id, hid⟩ : ∃ id, ids.get? p.1 = some id := by
      cases hgg : ids.get? p.1 with
      | none =>
        rw [List.get?_eq_none] at hgg
        omega
      | some id => exact ⟨id, rfl⟩
    obtain ⟨items, hitems⟩ := ih (fun q hq => h q (by simp [hq])) (rank + 1)
    cases hml : metaLookup rows id with
    | none =>
      refine ⟨items, ?_⟩
      unfold buildItemsGo
      simp only [hid, hitems, hml]
    | some row =>
      refine ⟨⟨rank, p.2, row.path, row.startL, row.endL, row.lang,
        if showSnip then some (rustLines row.preview) else none⟩ :: items, ?_⟩
      unfold buildItemsGo
      simp only [hid, hitems, hml]

/-- C6 (counterexample): the environment override `2.0` parses as a float
outside `[0, 1]`; the claim then demands the default `0.60`, but
`min_score_threshold` clamps the parsed value and yields `1`. -/
theorem threshold_clamp_counterexample :
    minScoreThreshold (some 2) = 1 ∧ (1 : Rat) ≠ 3 / 5 := by
  constructor
  · show (0 : Rat) ⊔ (2 ⊓ 1) = 1
    rw [min_eq_right (by norm_num : (1 : Rat) ≤ 2),
      max_eq_right (by norm_num : (0 : Rat) ≤ 1)]
  · norm_num

/-- C6 (amended): the confidence threshold is the default `0.60` when no
valid override is present and the override clamped into `[0, 1]` when one
parses; against a loadable index of matching dimension, a query whose top
(sorted) similarity is strictly below the threshold emits the empty output
in the requested format and records a miss, and one whose top similarity
reaches the threshold renders its results and records a hit. -/
theorem threshold_and_gate (env : Option Rat) (args : QueryArgsM) (qv : List Rat)
    (ann : List (Nat × Rat)) (lin : Nat → Rat) (now : Nat) (s : FS)
    (m : ManifestM) (v : Nat × List Nat × List (List Rat)) (rows : List MetaRowM)
    (hm : s.manifest = some m) (hv : s.vectors = some v) (hr : s.meta = some rows)
    (hq : qv.length = m.dim) :
    minScoreThreshold none = 3 / 5
    ∧ (∀ w : Rat, minScoreThreshold (some w) = max 0 (min w 1))
    ∧ (∀ i t,
        (sortScoresDesc (queryScores args.k s.graphFiles ann lin v.2.1.length)).head?
            = some (i, t) →
        t < minScoreThreshold env →
        queryM args qv ann lin env now s
          = (QueryOut.empty args.output,
             updateAnalyticsF (queryAnalyticsUpdate false now) s))
    ∧ (∀ i t,
        (sortScoresDesc (queryScores args.k s.graphFiles ann lin v.2.1.length)).head?
            = some (i, t) →
        minScoreThreshold env ≤ t →
        (∀ p ∈ ann, p.1 < v.2.1.length) → s.graphFiles = true →
        ∃ items,
          queryM args qv ann lin env now s
            = (QueryOut.results args.output args.noLineNumbers args.lineNumberWidth
                 args.diff items,
               updateAnalyticsF (queryAnalyticsUpdate true now) s)) := by
  refine ⟨rfl, fun w => rfl, ?_, ?_⟩
  · intro i t hh ht
    have hne : (sortScoresDesc
        (queryScores args.k s.graphFiles ann lin v.2.1.length)).isEmpty = false := by
      cases hS : sortScoresDesc (queryScores args.k s.graphFiles ann lin v.2.1.length) with
      | nil => rw [hS] at hh; simp at hh
      | cons a l => rfl
    have hd1 : decide (t < minScoreThreshold env) = true := decide_eq_true ht
    have hd2 : decide (minScoreThreshold env ≤ t) = false :=
      decide_eq_false (not_le.mpr ht)
    unfold queryM
    simp only [hm, hv, hr]
    rw [if_neg (by simp [hq])]
    simp [hh, hne, hd1, hd2]
  · intro i t hh ht hb hg
    have hne : (sortScoresDesc
        (queryScores args.k s.graphFiles ann lin v.2.1.length)).isEmpty = false := by
      cases hS : sortScoresDesc (queryScores args.k s.graphFiles ann lin v.2.1.length) with
      | nil => rw [hS] at hh; simp at hh
      | cons a l => rfl
    have hmem : ∀ p ∈ sortScoresDesc
        (queryScores args.k s.graphFiles ann lin v.2.1.length), p.1 < v.2.1.length := by
      intro p hp
      have hp2 := mem_sortScoresDesc _ p hp
      rw [hg] at hp2
      unfold queryScores at hp2
      rw [if_pos rfl] at hp2
      obtain ⟨q, hq1, hq2⟩ := List.mem_map.mp hp2
      rw [← hq2]
      exact hb q hq1
    obtain ⟨items, hitems⟩ := buildItemsGo_isSome args.showSnippets v.2.1 rows
      ((sortScoresDesc (queryScores args.k s.graphFiles ann lin v.2.1.length)).take
        (min args.k (sortScoresDesc
          (queryScores args.k s.graphFiles ann lin v.2.1.length)).length))
      (fun p hp => hmem p (List.mem_of_mem_take hp)) 0
    have hbi : buildItems args
        (sortScoresDesc (queryScores args.k s.graphFiles ann lin v.2.1.length)) v.2.1 rows
        = some items := hitems
    have hd1 : decide (t < minScoreThreshold env) = false :=
      decide_eq_false (not_lt.mpr ht)
    have hd2 : decide (minScoreThreshold env ≤ t) = true := decide_eq_true ht
    refine ⟨items, ?_⟩
    unfold queryM
    simp only [hm, hv, hr]
    rw [if_neg (by simp [hq])]
    simp [hh, hne, hd1, hd2, hbi]

/-- Evaluation of the build on one retained chunk from a fresh repository:
the concrete state used by several witnesses below. -/
theorem buildM_chunkA_eval :
    buildM [chunkA] 0 fsInit
      = { lock := false,
          vectors := some (1, [0], [[1]]),
          meta := some [⟨0, "a.rs", 1, 2, "rust", "fn main"⟩],
          graphFiles := true,
          manifest := some ⟨1, 1, Digest.shaVec 1 [0] [[1]],
            Digest.shaMeta [⟨0, "a.rs", 1, 2, "rust", "fn main"⟩], 0, 0⟩,
          analytics := some ⟨0, 0, 0, none, some 0⟩ } := by
  have hacc : List.foldl buildStep ⟨0, [], [], []⟩ [chunkA]
      = ⟨1, [0], [[1]], [⟨0, "a.rs", 1, 2, "rust", "fn main"⟩]⟩ := by
    norm_num [buildStep, chunkA, sumSq]
  simp [buildM, hacc, fsInit, updateAnalyticsF, readAnalyticsF, analyticsDefault]

/-- C6 witness: under the default threshold `0.60`, a query whose top
similarity is `0.5999` is gated — the empty text output is emitted and a
miss is recorded. -/
theorem threshold_and_gate_witness :
    queryM argsText [1] [(0, 4001 / 10000)] (fun _ => 0) none 1 (buildM [chunkA] 0 fsInit)
      = (QueryOut.empty OutputFmt.text,
         updateAnalyticsF (queryAnalyticsUpdate false 1) (buildM [chunkA] 0 fsInit)) := by
  have h := threshold_and_gate none argsText [1] [(0, 4001 / 10000)] (fun _ => 0) 1
    (buildM [chunkA] 0 fsInit)
    ⟨1, 1, Digest.shaVec 1 [0] [[1]],
      Digest.shaMeta [⟨0, "a.rs", 1, 2, "rust", "fn main"⟩], 0, 0⟩
    (1, [0], [[1]]) [⟨0, "a.rs", 1, 2, "rust", "fn main"⟩]
    (by rw [buildM_chunkA_eval]) (by rw [buildM_chunkA_eval]) (by rw [buildM_chunkA_eval])
    (by rfl)
  exact h.2.2.1 0 (5999 / 10000)
    (by rw [buildM_chunkA_eval]
        norm_num [queryScores, sortScoresDesc, insertDesc, argsText])
    (by norm_num [minScoreThreshold])

/-- C4 (counterexample): `search-code` with default flags is not
equivalent to `index query` with the same arguments plus
`--show-snippets`: the former passes `show_snippets: false` through, so on
a state with one hit its output carries no snippet while the output of the latter does. -/
theorem search_code_counterexample :
    (searchCodeM searchArgsA [1] [(0, 0)] (fun _ => 0) none 1 (buildM [chunkA] 0 fsInit)).1
    ≠ (queryM { searchCodeToQueryArgs searchArgsA with showSnippets := true } [1] [(0, 0)]
        (fun _ => 0) none 1 (buildM [chunkA] 0 fsInit)).1 := by
  have e : ∀ b : Bool,
      (queryM ⟨"q", 8, b, OutputFmt.text, false, 6, false⟩ [1] [(0, 0)]
        (fun _ => 0) none 1 (buildM [chunkA] 0 fsInit)).1
      = QueryOut.results OutputFmt.text false 6 false
          [⟨0, 1, "a.rs", 1, 2, "rust",
            if b then some (rustLines "fn main") else none⟩] := by
    intro b
    rw [buildM_chunkA_eval]
    norm_num [queryM, queryScores, sortScoresDesc, insertDesc, minScoreThreshold,
      buildItems, buildItemsGo, metaLookup, updateAnalyticsF, readAnalyticsF,
      List.get?_cons_zero,
      decide_eq_false (show ¬((1 : Rat) < 3 / 5) by norm_num),
      decide_eq_true (show ((3 : Rat) / 5 ≤ 1) by norm_num)]
  have h1 := e false
  have h2 := e true
  show (queryM ⟨"q", 8, false, OutputFmt.text, false, 6, false⟩ [1] [(0, 0)]
      (fun _ => 0) none 1 (buildM [chunkA] 0 fsInit)).1
    ≠ (queryM ⟨"q", 8, true, OutputFmt.text, false, 6, false⟩ [1] [(0, 0)]
      (fun _ => 0) none 1 (buildM [chunkA] 0 fsInit)).1
  rw [h1, h2]
  simp

/-- C4 (amended): `search-code` is an exact alias of `index query` with
the same arguments — every flag, including `--show-snippets`, is copied
through unchanged, and the dispatch runs the identical query; no flag is
implicitly added. -/
theorem search_code_exact_alias (a : SearchCodeArgsM) (qv : List Rat)
    (ann : List (Nat × Rat)) (lin : Nat → Rat) (env : Option Rat) (now : Nat) (s : FS) :
    searchCodeM a qv ann lin env now s = queryM (searchCodeToQueryArgs a) qv ann lin env now s
    ∧ searchCodeToQueryArgs a
        = ⟨a.query, a.k, a.showSnippets, a.output, a.noLineNumbers, a.lineNumberWidth,
           a.diff⟩ :=
  ⟨rfl, rfl⟩
